import Mathlib

/-!
Verification of the wiiproxy MSP (MultiWii Serial Protocol) host driver:
a shallow embedding of its frame codec (`WiiProxy.__assemble_message`,
`WiiProxy.__disassemble_message`, `WiiProxy.__get_crc`,
`MultiWiiMessagePayload.calculate_crc`), its command-descriptor
constructor (`MspCommand.__init__`), its link lifecycle (`WiiProxy.start`
/ `WiiProxy.stop`), its `write_delay` property setter, and the parts of
the scheduler/registry that the design document specifies.

Bytes are modelled as natural numbers (each produced byte is `< 256` by
construction), Python `int` values as `Int`, Python `float` values as
`Rat` (the setter performs no floating-point arithmetic: only a sign
test and storage), and fallible Python code as `Option` / `Except`.
-/

namespace Wiiproxy

/-- One numeric conversion character of a `struct` format string under the
little-endian `<` prefix byte order used throughout the code
(`WiiProxy._ENDIANNESS = '<'`): `b`/`B` one byte, `h`/`H` two bytes,
`i`/`I` four bytes; lower case is signed. -/
inductive SChar
  | sb | sB | sh | sH | si | sI
  deriving DecidableEq, Repr

/-- Byte width of a conversion character (standard sizes, no alignment,
as selected by `<`). -/
def SChar.nbytes : SChar → Nat
  | .sb => 1
  | .sB => 1
  | .sh => 2
  | .sH => 2
  | .si => 4
  | .sI => 4

/-- Whether the conversion character denotes a signed integer. -/
def SChar.signed : SChar → Bool
  | .sb => true
  | .sh => true
  | .si => true
  | _ => false

/-- Smallest value `struct.pack` accepts for the character. -/
def SChar.lo (c : SChar) : Int :=
  if c.signed then -(2 ^ (8 * c.nbytes - 1)) else 0

/-- One past the largest value `struct.pack` accepts for the character. -/
def SChar.hi (c : SChar) : Int :=
  if c.signed then 2 ^ (8 * c.nbytes - 1) else 2 ^ (8 * c.nbytes)

/-- Little-endian byte decomposition: `toLE n v` is the `n`-byte
little-endian encoding of `v` (low byte first), as `struct.pack` emits
under `<`. -/
def toLE : Nat → Nat → List Nat
  | 0, _ => []
  | n + 1, v => v % 256 :: toLE n (v / 256)

/-- Little-endian byte composition, the reading direction of
`struct.unpack` under `<`. -/
def fromLE : List Nat → Nat
  | [] => 0
  | a :: r => a + 256 * fromLE r

/-- `struct.pack` of a single value for one conversion character:
range-checks the value (raising `struct.error`, i.e. `none`, when it is
out of range) and emits the two's-complement little-endian bytes. -/
def encodeVal (c : SChar) (v : Int) : Option (List Nat) :=
  if c.lo ≤ v ∧ v < c.hi then
    some (toLE c.nbytes (v % 2 ^ (8 * c.nbytes)).toNat)
  else
    none

/-- `struct.unpack` of a single value for one conversion character:
reassembles the little-endian bytes and undoes two's complement for the
signed characters. -/
def decodeVal (c : SChar) (bs : List Nat) : Int :=
  let u : Int := fromLE bs
  if c.signed = true ∧ 2 ^ (8 * c.nbytes - 1) ≤ u then
    u - 2 ^ (8 * c.nbytes)
  else
    u

/-- `struct.pack` over an expanded format (one `SChar` per packed value;
a count such as `2B` is expanded to two characters): fails when the
number of values does not match the format or a value is out of range. -/
def packVals : List SChar → List Int → Option (List Nat)
  | [], [] => some []
  | [], _ :: _ => none
  | _ :: _, [] => none
  | c :: fmt, v :: vs =>
    match encodeVal c v, packVals fmt vs with
    | some b, some rest => some (b ++ rest)
    | _, _ => none

/-- `struct.unpack` over an expanded format: consumes exactly
`c.nbytes` bytes per character and fails unless the buffer length equals
the format's total size, as `struct.unpack` does. -/
def unpackVals : List SChar → List Nat → Option (List Int)
  | [], [] => some []
  | [], _ :: _ => none
  | c :: fmt, bs =>
    if c.nbytes ≤ bs.length then
      match unpackVals fmt (List.drop c.nbytes bs) with
      | some rest => some (decodeVal c (List.take c.nbytes bs) :: rest)
      | none => none
    else
      none

theorem toLE_length (n v : Nat) : (toLE n v).length = n := by
  induction n generalizing v with
  | zero => rfl
  | succ n ih => simp [toLE, ih]

theorem toLE_mem_lt (n v : Nat) : ∀ b ∈ toLE n v, b < 256 := by
  induction n generalizing v with
  | zero => simp [toLE]
  | succ n ih =>
    intro b hb
    simp only [toLE, List.mem_cons] at hb
    rcases hb with h | h
    · omega
    · exact ih _ b h

theorem fromLE_toLE (n v : Nat) (h : v < 256 ^ n) : fromLE (toLE n v) = v := by
  induction n generalizing v with
  | zero =>
    simp [toLE, fromLE]
    omega
  | succ n ih =>
    simp only [toLE, fromLE]
    rw [ih (v / 256) (by rw [pow_succ] at h; omega)]
    omega

theorem encodeVal_length (c : SChar) (v : Int) (bs : List Nat)
    (h : encodeVal c v = some bs) : bs.length = c.nbytes := by
  unfold encodeVal at h
  split at h
  · cases h
    exact toLE_length _ _
  · cases h

theorem encodeVal_mem_lt (c : SChar) (v : Int) (bs : List Nat)
    (h : encodeVal c v = some bs) : ∀ b ∈ bs, b < 256 := by
  unfold encodeVal at h
  split at h
  · cases h
    exact toLE_mem_lt _ _
  · cases h

theorem pow_256_eq (n : Nat) : (256 : Nat) ^ n = 2 ^ (8 * n) := by
  rw [show (256 : Nat) = 2 ^ 8 from rfl, ← pow_mul]

/-- Decoding inverts encoding for every in-range value. -/
theorem decodeVal_encodeVal (c : SChar) (v : Int) (bs : List Nat)
    (h : encodeVal c v = some bs) : decodeVal c bs = v := by
  unfold encodeVal at h
  split at h
  case isFalse => cases h
  case isTrue hr =>
    cases h
    have h2 : (0 : Int) < 2 ^ (8 * c.nbytes) := by positivity
    have hcast : ((2 : Int) ^ (8 * c.nbytes)) = ((2 ^ (8 * c.nbytes) : Nat) : Int) := by
      push_cast
      ring
    have hlt := Int.emod_lt_of_pos v h2
    have hnn := Int.emod_nonneg v (by omega : (2 : Int) ^ (8 * c.nbytes) ≠ 0)
    have hmodlt : (v % 2 ^ (8 * c.nbytes)).toNat < 256 ^ c.nbytes := by
      rw [pow_256_eq]
      rw [hcast] at hlt hnn
      omega
    have hfrom : fromLE (toLE c.nbytes (v % 2 ^ (8 * c.nbytes)).toNat)
        = (v % 2 ^ (8 * c.nbytes)).toNat := fromLE_toLE _ _ hmodlt
    unfold decodeVal
    rw [hfrom]
    rw [Int.toNat_of_nonneg hnn]
    rcases hr with ⟨hlo, hhi⟩
    rw [SChar.lo] at hlo
    rw [SChar.hi] at hhi
    cases c <;>
      simp only [SChar.signed, SChar.nbytes] at hlo hhi ⊢ <;>
      norm_num at hlo hhi ⊢ <;>
      (try split) <;>
      omega

theorem packVals_mem_lt (fmt : List SChar) (vs : List Int) (bs : List Nat)
    (h : packVals fmt vs = some bs) : ∀ b ∈ bs, b < 256 := by
  induction fmt generalizing vs bs with
  | nil =>
    cases vs with
    | nil =>
      cases h
      simp
    | cons v vs => cases h
  | cons c fmt ih =>
    cases vs with
    | nil => cases h
    | cons v vs =>
      simp only [packVals] at h
      cases he : encodeVal c v with
      | none => rw [he] at h; cases h
      | some b =>
        cases hp : packVals fmt vs with
        | none => rw [he, hp] at h; cases h
        | some rest =>
          rw [he, hp] at h
          cases h
          intro x hx
          rcases List.mem_append.mp hx with hx | hx
          · exact encodeVal_mem_lt c v b he x hx
          · exact ih vs rest hp x hx

/-- Unpacking inverts packing: the round-trip property of the byte codec
at the `struct` level. -/
theorem unpackVals_packVals (fmt : List SChar) (vs : List Int) (bs : List Nat)
    (h : packVals fmt vs = some bs) : unpackVals fmt bs = some vs := by
  induction fmt generalizing vs bs with
  | nil =>
    cases vs with
    | nil => cases h; rfl
    | cons v vs => cases h
  | cons c fmt ih =>
    cases vs with
    | nil => cases h
    | cons v vs =>
      simp only [packVals] at h
      cases he : encodeVal c v with
      | none => rw [he] at h; cases h
      | some b =>
        cases hp : packVals fmt vs with
        | none => rw [he, hp] at h; cases h
        | some rest =>
          rw [he, hp] at h
          cases h
          have hlen : b.length = c.nbytes := encodeVal_length c v b he
          simp only [unpackVals, List.length_append]
          rw [if_pos (by omega)]
          rw [show List.drop c.nbytes (b ++ rest) = rest by
            rw [← hlen, List.drop_left]]
          rw [ih vs rest hp]
          rw [show List.take c.nbytes (b ++ rest) = b by
            rw [← hlen, List.take_left]]
          rw [decodeVal_encodeVal c v b he]

/-- Unpacking distributes over concatenation of formats and buffers. -/
theorem unpackVals_append (f1 f2 : List SChar) (b1 b2 : List Nat)
    (v1 v2 : List Int)
    (h1 : unpackVals f1 b1 = some v1) (h2 : unpackVals f2 b2 = some v2) :
    unpackVals (f1 ++ f2) (b1 ++ b2) = some (v1 ++ v2) := by
  induction f1 generalizing b1 v1 with
  | nil =>
    cases b1 with
    | nil =>
      cases h1
      simpa using h2
    | cons x xs => cases h1
  | cons c f1 ih =>
    simp only [unpackVals] at h1
    split at h1
    case isFalse => cases h1
    case isTrue hle =>
      cases hr : unpackVals f1 (List.drop c.nbytes b1) with
      | none => rw [hr] at h1; cases h1
      | some rest =>
        rw [hr] at h1
        cases h1
        simp only [List.cons_append, unpackVals, List.length_append]
        rw [if_pos (by omega)]
        rw [List.drop_append_of_le_length hle, List.take_append_of_le_length hle]
        rw [show f1.append f2 = f1 ++ f2 from rfl]
        rw [ih (List.drop c.nbytes b1) rest hr]

/-- Specification-side running XOR of a byte list (the reference against
which the two CRC functions of the code are checked). -/
def xorBytes : List Nat → Nat
  | [] => 0
  | b :: r => b ^^^ xorBytes r

/-- `WiiProxy.__get_crc` (src/src/WiiProxy.py): `checksum = 0`, then
`for value in payload: checksum ^= value`. -/
def getCrc (payload : List Nat) : Nat :=
  payload.foldl (fun checksum value => checksum ^^^ value) 0

/-- `MultiWiiMessagePayload.calculate_crc`
(src/wiiproxy/messaging/MultiWiiMessagePayload.py): `checksum = 0`, then
`for byte in payload: checksum ^= byte`. -/
def calculateCrc (payload : List Nat) : Nat :=
  payload.foldl (fun checksum byte => checksum ^^^ byte) 0

/-- `WiiProxy._PREAMBLE_IN`: the bytes of `'$M<'` (the source text builds
them as `pack(_PREAMBLE_STRUCT_FORMAT, '$M<')`; the constant denotes the
three ASCII bytes `$`, `M`, `<`). -/
def preambleIn : List Nat := [36, 77, 60]

/-- `WiiProxy._PREAMBLE_OUT`: the bytes of `'$M>'` (ASCII `$`, `M`, `>`). -/
def preambleOut : List Nat := [36, 77, 62]

/-- `int.to_bytes(length=1, byteorder='little', signed=False)`: a single
byte, failing (`OverflowError`) when the value does not fit. -/
def intToBytes1 (n : Nat) : Option (List Nat) :=
  if n < 256 then some [n] else none

/-- `WiiProxy.__assemble_message(format, data)`:
`payload = pack(format, *data)`;
`checksum = __get_crc(payload).to_bytes(1, 'little')`;
returns `_PREAMBLE_IN + payload + checksum`. -/
def assembleMessage (format : List SChar) (data : List Int) : Option (List Nat) :=
  match packVals format data with
  | none => none
  | some payload =>
    match intToBytes1 (getCrc payload) with
    | none => none
    | some checksum => some (preambleIn ++ payload ++ checksum)

/-- `WiiProxy.__disassemble_message(format, payload)`: the body is exactly
`return unpack(format, payload)` — no preamble check and no checksum
check. -/
def disassembleMessage (format : List SChar) (buffer : List Nat) : Option (List Int) :=
  unpackVals format buffer

theorem foldl_xor_eq (l : List Nat) (a : Nat) :
    l.foldl (fun x y => x ^^^ y) a = a ^^^ xorBytes l := by
  induction l generalizing a with
  | nil => simp [xorBytes]
  | cons b r ih =>
    simp only [List.foldl, xorBytes]
    rw [ih (a ^^^ b), Nat.xor_assoc]

theorem getCrc_eq_xorBytes (p : List Nat) : getCrc p = xorBytes p := by
  unfold getCrc
  rw [foldl_xor_eq]
  exact Nat.zero_xor _

theorem calculateCrc_eq_xorBytes (p : List Nat) : calculateCrc p = xorBytes p := by
  unfold calculateCrc
  rw [foldl_xor_eq]
  exact Nat.zero_xor _

theorem xorBytes_lt (l : List Nat) (h : ∀ b ∈ l, b < 256) : xorBytes l < 256 := by
  induction l with
  | nil => simp [xorBytes]
  | cons b r ih =>
    have hb : b < 2 ^ 8 := h b (by simp)
    have hr : xorBytes r < 2 ^ 8 := ih (fun x hx => h x (by simp [hx]))
    exact Nat.xor_lt_two_pow hb hr

theorem packVals_cons_eq (c : SChar) (fmt : List SChar) (v : Int) (vs : List Int)
    (b : List Nat) (rest : List Nat)
    (hv : encodeVal c v = some b) (hr : packVals fmt vs = some rest) :
    packVals (c :: fmt) (v :: vs) = some (b ++ rest) := by
  simp only [packVals, hv, hr]

/-- The assembled message is the incoming preamble, the packed payload
and one checksum byte, whenever packing succeeds. -/
theorem assembleMessage_eq (fmt : List SChar) (vs : List Int) (payload : List Nat)
    (hp : packVals fmt vs = some payload) :
    assembleMessage fmt vs = some (preambleIn ++ payload ++ [xorBytes payload]) := by
  have hlt : xorBytes payload < 256 :=
    xorBytes_lt payload (packVals_mem_lt fmt vs payload hp)
  simp only [assembleMessage, hp, intToBytes1, getCrc_eq_xorBytes, if_pos hlt]

theorem unpackVals_single_unsigned_byte (c : Nat) :
    unpackVals [SChar.sB] [c] = some [(c : Int)] := by
  simp [unpackVals, decodeVal, SChar.nbytes, SChar.signed, fromLE]

theorem toLE_one (v : Nat) : toLE 1 v = [v % 256] := rfl

/-- Packing a value in `[0, 256)` with the `B` character yields exactly
that byte. -/
theorem encodeVal_unsigned_byte (n : Nat) (h : n < 256) :
    encodeVal SChar.sB (n : Int) = some [n] := by
  have hlo : SChar.lo SChar.sB = 0 := by decide
  have hhi : SChar.hi SChar.sB = 256 := by decide
  have hcond : SChar.lo SChar.sB ≤ (n : Int) ∧ (n : Int) < SChar.hi SChar.sB := by
    rw [hlo, hhi]
    omega
  unfold encodeVal
  rw [if_pos hcond]
  have hM : (2 : Int) ^ (8 * SChar.nbytes SChar.sB) = 256 := by decide
  rw [hM]
  have hmod : ((n : Int) % 256).toNat = n := by omega
  rw [hmod]
  show some (toLE 1 n) = some [n]
  rw [toLE_one, Nat.mod_eq_of_lt h]

/-- Standard (`<`-mode) byte size of one `struct` conversion character:
1 for `b B c s x p ?`, 2 for `h H e`, 4 for `i I l L f`, 8 for `q Q d`;
any other character is a `struct.error` (`none`). -/
def charSize (ch : Char) : Option Nat :=
  if ch = 'b' ∨ ch = 'B' ∨ ch = 'c' ∨ ch = 's' ∨ ch = 'x' ∨ ch = 'p' ∨ ch = '?' then
    some 1
  else if ch = 'h' ∨ ch = 'H' ∨ ch = 'e' then
    some 2
  else if ch = 'i' ∨ ch = 'I' ∨ ch = 'l' ∨ ch = 'L' ∨ ch = 'f' then
    some 4
  else if ch = 'q' ∨ ch = 'Q' ∨ ch = 'd' then
    some 8
  else
    none

/-- Worker for `calcsize`: `acc` is the decimal repeat count read so far
and `seen` records whether any count digit was read (so that a bare
character counts once, `0B` counts zero times, and a trailing count with
no character is a `struct.error`, as in CPython). -/
def calcsizeAux : List Char → Nat → Bool → Option Nat
  | [], _, seen => if seen then none else some 0
  | ch :: rest, acc, seen =>
    if ch.isDigit then
      calcsizeAux rest (10 * acc + (ch.toNat - 48)) true
    else
      match charSize ch with
      | some s =>
        match calcsizeAux rest 0 false with
        | some t => some ((if seen then acc else 1) * s + t)
        | none => none
      | none => none

/-- `struct.calcsize` of a format under the `<` byte-order prefix
(standard sizes, no alignment padding), over the characters after the
prefix. -/
def calcsize (fmt : List Char) : Option Nat :=
  calcsizeAux fmt 0 false

/-- Python exceptions raised by the embedded code. -/
inductive PyExc
  | valueError
  | typeError
  | structError
  deriving DecidableEq, Repr

/-- The fields `MspCommand.__init__` (src/wiiproxy/command.py) assigns:
`_code`, `_is_set_command`, `_has_variable_size`, `_struct_format`,
`_struct_format_size`. A Python string is a `List Char` and the `None`
assignments are `none`. -/
structure MspCommand where
  code : Int
  is_set_command : Bool
  has_variable_size : Bool
  struct_format : Option (List Char)
  struct_format_size : Option Nat
  deriving DecidableEq, Repr

/-- `MspCommand.__init__(code, struct_format)`:
raises `ValueError` unless `100 <= code <= 250`; sets
`_is_set_command = code >= 200`; when `struct_format` is truthy
(non-`None` and non-empty) it strips a leading `'*'` (recording
`_has_variable_size`), computes `calcsize('<' + struct_format)` and
stores the format and its size; otherwise stores `False`, `None`,
`None`. -/
def mkMspCommand (code : Int) (struct_format : Option (List Char)) :
    Except PyExc MspCommand :=
  if ¬ (100 ≤ code ∧ code ≤ 250) then
    .error .valueError
  else
    match struct_format with
    | some ('*' :: restF) =>
      match calcsize restF with
      | some n => .ok ⟨code, decide (200 ≤ code), true, some restF, some n⟩
      | none => .error .structError
    | some (ch :: restF) =>
      match calcsize (ch :: restF) with
      | some n => .ok ⟨code, decide (200 ≤ code), false, some (ch :: restF), some n⟩
      | none => .error .structError
    | _ => .ok ⟨code, decide (200 ≤ code), false, none, none⟩

/-- `WiiProxy.__init__` creates the request queue as
`PriorityQueue(100)`: the fixed queue capacity is 100. -/
def commandQueueCapacity : Nat := 100

/-- Error raised on admission when the request queue is full. -/
inductive QueueErr
  | queueFull
  deriving DecidableEq, Repr

/-- Modelled from the spec: the scheduler's `enqueue` operation is never
implemented in the sources (`WiiProxy.__handle_command_queue` and
`WiiProxy.__send_message` are TODO stubs and nothing calls
`PriorityQueue.put`); per the spec, admission to the fixed-capacity
queue fails immediately with `QueueFullError` when the queue is full,
without blocking, and otherwise appends the request. The capacity is the
source's `PriorityQueue(100)` bound. -/
def enqueueRequest {α : Type} (q : List α) (r : α) : Except QueueErr (List α) :=
  if commandQueueCapacity ≤ q.length then
    .error .queueFull
  else
    .ok (q ++ [r])

/-- Registration-time errors of the command descriptor table. -/
inductive RegisterErr
  | invalidCode
  | duplicateRegistration
  deriving DecidableEq, Repr

/-- Modelled from the spec: the command descriptor table
(`register`/`lookup`, the `command_code` decorator machinery imported
from the data package's `__init__`, absent from the sources — only its
decorated callers such as `MspPid` and `Pid` are present); per the spec,
`register` fails with `InvalidCodeError` for a code outside `[100, 250]`
and with a duplicate-registration error when the code is already
registered, and otherwise adds the `(code, layout)` descriptor entry. -/
def registerCommand (table : List (Int × Option (List Char))) (code : Int)
    (layout : Option (List Char)) :
    Except RegisterErr (List (Int × Option (List Char))) :=
  if ¬ (100 ≤ code ∧ code ≤ 250) then
    .error .invalidCode
  else if table.any (fun e => e.1 = code) then
    .error .duplicateRegistration
  else
    .ok ((code, layout) :: table)

/-- The link-lifecycle state of a `WiiProxy` instance: the `_is_active`
flag and whether `_thread` has ever been started (Python's
`threading.Thread` refuses to start twice and to be joined before it is
started). -/
structure LinkState where
  is_active : Bool
  thread_started : Bool
  deriving DecidableEq, Repr

/-- `RuntimeError`, as raised by `threading.Thread.start` on a thread
that was already started and by `Thread.join` on one never started. -/
inductive ThreadErr
  | runtimeError
  deriving DecidableEq, Repr

/-- `WiiProxy.start`: `if self._is_active: return`, then
`self._thread.start()` and `self._is_active = True`. `Thread.start` on
an already-started thread raises `RuntimeError`. -/
def startLink (s : LinkState) : Except ThreadErr LinkState :=
  if s.is_active then
    .ok s
  else if s.thread_started then
    .error .runtimeError
  else
    .ok ⟨true, true⟩

/-- `WiiProxy.stop`: `if not self._is_active: return`, then
`self._thread.join()` and `self._is_active = False`. `Thread.join` on a
never-started thread raises `RuntimeError`; a completed `join` is
modelled as returning. -/
def stopLink (s : LinkState) : Except ThreadErr LinkState :=
  if ¬ s.is_active then
    .ok s
  else if ¬ s.thread_started then
    .error .runtimeError
  else
    .ok ⟨false, s.thread_started⟩

/-- Python values as far as the `write_delay` setter inspects them: the
setter does `isinstance(value, float)` (note `bool` and `int` are not
`float`), then a sign test, then stores the value; a Python float is
modelled as an exact rational since no arithmetic is performed on it. -/
inductive PyVal
  | pyFloat (q : ℚ)
  | pyInt (n : ℤ)
  | pyBool (b : Bool)
  | pyStr (s : List Char)
  | pyNone
  deriving DecidableEq, Repr

/-- `WiiProxy.__init__`: `self._write_delay = 0.005`. -/
def initialWriteDelay : ℚ := 5 / 1000

/-- The `write_delay` setter: raises `TypeError` unless the value is a
`float`, raises `ValueError` when it is negative, and only then assigns
`self._write_delay = value`. Returns the stored delay after the call
(unchanged when an exception was raised) with the raised exception, if
any. -/
def setWriteDelay (old : ℚ) (value : PyVal) : ℚ × Option PyExc :=
  match value with
  | .pyFloat q => if q < 0 then (old, some .valueError) else (q, none)
  | _ => (old, some .typeError)

/-- Claim C1, as amended: disassembling the bytes produced by assembling
a valid pair — with the full-message format, since
`__disassemble_message` unpacks the whole buffer — yields the three
preamble byte values followed by the original data tuple (which carries
the code and the values) and the checksum byte, not the bare pair of
code and values. -/
theorem C1_disassemble_of_assemble (fmt : List SChar) (data : List Int)
    (payload : List Nat) (hp : packVals fmt data = some payload) :
    ∃ msg, assembleMessage fmt data = some msg ∧
      disassembleMessage ([SChar.sb, SChar.sb, SChar.sb] ++ fmt ++ [SChar.sB]) msg =
        some (([36, 77, 60] : List Int) ++ data ++ [(xorBytes payload : Int)]) := by
  refine ⟨preambleIn ++ payload ++ [xorBytes payload],
    assembleMessage_eq fmt data payload hp, ?_⟩
  unfold disassembleMessage
  have h1 : unpackVals [SChar.sb, SChar.sb, SChar.sb] preambleIn =
      some [36, 77, 60] := by decide
  have h2 : unpackVals fmt payload = some data :=
    unpackVals_packVals fmt data payload hp
  have h3 : unpackVals [SChar.sB] [xorBytes payload] =
      some [(xorBytes payload : Int)] :=
    unpackVals_single_unsigned_byte _
  have h23 := unpackVals_append fmt [SChar.sB] payload [xorBytes payload]
    data [(xorBytes payload : Int)] h2 h3
  have h123 := unpackVals_append [SChar.sb, SChar.sb, SChar.sb] (fmt ++ [SChar.sB])
    preambleIn (payload ++ [xorBytes payload])
    [36, 77, 60] (data ++ [(xorBytes payload : Int)]) h1 h23
  simpa [List.append_assoc] using h123

/-- Witness for C1: the concrete frame of format `<2B2B` with data
`(2, 150, 7, 9)` round-trips through assemble and full-format
disassemble. -/
theorem C1_disassemble_of_assemble_app :
    ∃ msg, assembleMessage [SChar.sB, SChar.sB, SChar.sB, SChar.sB] [2, 150, 7, 9] =
        some msg ∧
      disassembleMessage
        ([SChar.sb, SChar.sb, SChar.sb] ++ [SChar.sB, SChar.sB, SChar.sB, SChar.sB] ++
          [SChar.sB]) msg =
        some (([36, 77, 60] : List Int) ++ [2, 150, 7, 9] ++
          [(xorBytes [2, 150, 7, 9] : Int)]) :=
  C1_disassemble_of_assemble [SChar.sB, SChar.sB, SChar.sB, SChar.sB]
    [2, 150, 7, 9] [2, 150, 7, 9] (by decide)

/-- Counterexample to C1 as stated: for the valid pair of format `<2B2B`
and data `(2, 150, 7, 9)` (code 150, values `(7, 9)`),
`__disassemble_message` over the assembled frame returns the full
unpacked tuple `(36, 77, 60, 2, 150, 7, 9, 154)`, which is not the pair
of the code and the original values. -/
theorem C1_roundtrip_cex :
    assembleMessage [SChar.sB, SChar.sB, SChar.sB, SChar.sB] [2, 150, 7, 9] =
      some [36, 77, 60, 2, 150, 7, 9, 154] ∧
    disassembleMessage
      [SChar.sb, SChar.sb, SChar.sb, SChar.sB, SChar.sB, SChar.sB, SChar.sB, SChar.sB]
      [36, 77, 60, 2, 150, 7, 9, 154] =
      some [36, 77, 60, 2, 150, 7, 9, 154] ∧
    ([36, 77, 60, 2, 150, 7, 9, 154] : List Int) ≠ [150, 7, 9] :=
  ⟨by decide, by decide, by decide⟩

/-- Claim C2: both checksum functions — `WiiProxy.__get_crc` and
`MultiWiiMessagePayload.calculate_crc` — return the running XOR, seeded
at 0, of every byte of their input, and hence implement the identical
algorithm. -/
theorem C2_crc_is_xor (p : List Nat) :
    getCrc p = xorBytes p ∧ calculateCrc p = xorBytes p ∧ getCrc p = calculateCrc p :=
  ⟨getCrc_eq_xorBytes p, calculateCrc_eq_xorBytes p,
    (getCrc_eq_xorBytes p).trans (calculateCrc_eq_xorBytes p).symm⟩

/-- Claim C3, as amended: the assembled message is exactly the
*incoming* preamble bytes `'$','M','<'` (`_PREAMBLE_IN`, the constant
`__assemble_message` actually prepends) followed by the one-byte payload
length, the one-byte command code, the packed payload, and a final
checksum byte equal to the XOR of the length byte, the code byte, and
every payload byte. -/
theorem C3_assemble_wire (fmt : List SChar) (vals : List Int)
    (size code : Nat) (body : List Nat)
    (hs : size < 256) (hc : code < 256)
    (hb : packVals fmt vals = some body) :
    assembleMessage (SChar.sB :: SChar.sB :: fmt)
        ((size : Int) :: (code : Int) :: vals) =
      some ([36, 77, 60] ++ size :: code :: body ++
        [xorBytes (size :: code :: body)]) := by
  have h2 := packVals_cons_eq SChar.sB fmt _ vals _ body
    (encodeVal_unsigned_byte code hc) hb
  have h1 := packVals_cons_eq SChar.sB (SChar.sB :: fmt) _ ((code : Int) :: vals)
    _ ([code] ++ body) (encodeVal_unsigned_byte size hs) h2
  have := assembleMessage_eq _ _ _ h1
  simpa [preambleIn] using this

/-- Witness for C3: frame of length byte 1, code byte 101, payload `[5]`. -/
theorem C3_assemble_wire_app :
    assembleMessage [SChar.sB, SChar.sB, SChar.sB]
        [((1 : Nat) : Int), ((101 : Nat) : Int), 5] =
      some ([36, 77, 60] ++ 1 :: 101 :: [5] ++ [xorBytes [1, 101, 5]]) :=
  C3_assemble_wire [SChar.sB] [5] 1 101 [5] (by decide) (by decide) (by decide)

/-- Counterexample to C3 as stated: the assembled frame for length 1,
code 101, payload `[5]` starts with the bytes of `'$M<'` (36, 77, 60),
not with the outgoing marker `'$M>'` (36, 77, 62). -/
theorem C3_preamble_cex :
    assembleMessage [SChar.sB, SChar.sB, SChar.sB] [1, 101, 5] =
      some [36, 77, 60, 1, 101, 5, 97] ∧
    ([36, 77, 60, 1, 101, 5, 97] : List Nat).take 3 ≠ [36, 77, 62] :=
  ⟨by decide, by decide⟩

/-- Claim C4, the code evaluated at the failing input: the frame
`[36, 77, 60, 2, 150, 7, 9, 154]` is a valid assembled frame; flipping
the lowest bit of the payload byte 7 gives
`[36, 77, 60, 2, 150, 6, 9, 154]`, whose stored checksum byte 154 no
longer equals the XOR of its length, code and payload bytes — yet
`__disassemble_message` still succeeds and returns the unpacked tuple:
it performs no checksum (or preamble) validation at all, and no
`ChecksumMismatchError` exists in the code. -/
theorem C4_disassemble_accepts_corrupt :
    assembleMessage [SChar.sB, SChar.sB, SChar.sB, SChar.sB] [2, 150, 7, 9] =
      some [36, 77, 60, 2, 150, 7, 9, 154] ∧
    xorBytes [2, 150, 6, 9] ≠ 154 ∧
    disassembleMessage
      [SChar.sb, SChar.sb, SChar.sb, SChar.sB, SChar.sB, SChar.sB, SChar.sB, SChar.sB]
      [36, 77, 60, 2, 150, 6, 9, 154] =
      some [36, 77, 60, 2, 150, 6, 9, 154] :=
  ⟨by decide, by decide, by decide⟩

/-- Claim C5: `MspCommand.__init__` raises an invalid-code error
(`ValueError`) for every code outside `[100, 250]`, succeeds for every
code inside the range (with a format whose processing succeeds — shown
for the `None` format), and sets `is_set_command` exactly when the code
is at least 200. -/
theorem C5_code_range (code : Int) (fmt : Option (List Char)) :
    (¬ (100 ≤ code ∧ code ≤ 250) → mkMspCommand code fmt = .error .valueError) ∧
    (100 ≤ code → code ≤ 250 →
      ∃ c, mkMspCommand code none = .ok c ∧ c.is_set_command = decide (200 ≤ code)) ∧
    (∀ c, mkMspCommand code fmt = .ok c → (c.is_set_command = true ↔ 200 ≤ code)) := by
  refine ⟨?_, ?_, ?_⟩
  · intro h
    unfold mkMspCommand
    rw [if_pos h]
  · intro h1 h2
    refine ⟨⟨code, decide (200 ≤ code), false, none, none⟩, ?_, rfl⟩
    unfold mkMspCommand
    rw [if_neg (not_not_intro ⟨h1, h2⟩)]
  · intro c h
    unfold mkMspCommand at h
    split at h
    case isTrue => cases h
    case isFalse hr =>
      have hset : c.is_set_command = decide (200 ≤ code) := by
        split at h
        · split at h
          · cases h; rfl
          · cases h
        · split at h
          · cases h; rfl
          · cases h
        · cases h; rfl
      rw [hset]
      simp

/-- Witness for C5: codes 99 and 251 are rejected; code 150 yields a
get command (`is_set_command = false`), code 200 a set command. -/
theorem C5_code_range_app :
    mkMspCommand 99 none = .error .valueError ∧
    mkMspCommand 251 none = .error .valueError ∧
    (∃ c, mkMspCommand 150 none = .ok c ∧
      c.is_set_command = decide ((200 : Int) ≤ 150)) ∧
    (∃ c, mkMspCommand 200 none = .ok c ∧
      c.is_set_command = decide ((200 : Int) ≤ 200)) :=
  ⟨(C5_code_range 99 none).1 (by decide),
   (C5_code_range 251 none).1 (by decide),
   (C5_code_range 150 none).2.1 (by decide) (by decide),
   (C5_code_range 200 none).2.1 (by decide) (by decide)⟩

/-- Claim C6: the request queue has the fixed capacity 100
(`PriorityQueue(100)` in `WiiProxy.__init__`); enqueuing onto a full
queue fails immediately with `QueueFullError`, and otherwise the request
is appended. (`enqueue` is modelled from the spec; see
`enqueueRequest`.) -/
theorem C6_enqueue_bound {α : Type} (q : List α) (r : α) :
    commandQueueCapacity = 100 ∧
    (commandQueueCapacity ≤ q.length → enqueueRequest q r = .error .queueFull) ∧
    (q.length < commandQueueCapacity → enqueueRequest q r = .ok (q ++ [r])) := by
  refine ⟨rfl, ?_, ?_⟩
  · intro h
    unfold enqueueRequest
    rw [if_pos h]
  · intro h
    unfold enqueueRequest
    rw [if_neg (by omega)]

/-- Witness for C6: a queue holding 100 requests rejects the next one. -/
theorem C6_enqueue_bound_app :
    enqueueRequest (List.replicate 100 (0 : Nat)) 1 = .error .queueFull :=
  (C6_enqueue_bound (List.replicate 100 (0 : Nat)) 1).2.1
    (by simp [commandQueueCapacity])

/-- Claim C7: registering a second descriptor under an
already-registered (valid) code fails with the duplicate-registration
error instead of overwriting, and a successful registration preserves
the at-most-one-descriptor-per-code invariant of the table.
(The registry is modelled from the spec; see `registerCommand`.) -/
theorem C7_register_unique (table : List (Int × Option (List Char))) (code : Int)
    (layout : Option (List Char)) :
    (100 ≤ code → code ≤ 250 → (∃ e ∈ table, e.1 = code) →
      registerCommand table code layout = .error .duplicateRegistration) ∧
    (∀ t', registerCommand table code layout = .ok t' →
      (table.map Prod.fst).Nodup → (t'.map Prod.fst).Nodup) := by
  constructor
  · intro h1 h2 hdup
    unfold registerCommand
    rw [if_neg (not_not_intro ⟨h1, h2⟩)]
    have hany : (table.any fun e => decide (e.1 = code)) = true := by
      rw [List.any_eq_true]
      obtain ⟨e, he, hec⟩ := hdup
      exact ⟨e, he, by simp [hec]⟩
    rw [if_pos hany]
  · intro t' h hnd
    unfold registerCommand at h
    split at h
    case isTrue => cases h
    case isFalse hr =>
      split at h
      case isTrue => cases h
      case isFalse hany =>
        cases h
        simp only [List.map_cons, List.nodup_cons]
        refine ⟨?_, hnd⟩
        intro hmem
        obtain ⟨e, he, hec⟩ := List.mem_map.mp hmem
        exact hany (List.any_eq_true.mpr ⟨e, he, by simp [hec]⟩)

/-- Witness for C7: registering code 150 into a table that already
holds code 150 fails with the duplicate-registration error. -/
theorem C7_register_unique_app :
    registerCommand [((150 : Int), (none : Option (List Char)))] 150 none =
      .error .duplicateRegistration :=
  (C7_register_unique [(150, none)] 150 none).1 (by decide) (by decide)
    ⟨(150, none), by simp, rfl⟩

/-- Claim C8: `start` on an already-active link and `stop` on an
inactive link return the state unchanged (flag and worker untouched);
every `start` that returns leaves the link active and every `stop` that
returns leaves it inactive. -/
theorem C8_start_stop_idem (s : LinkState) :
    (s.is_active = true → startLink s = .ok s) ∧
    (s.is_active = false → stopLink s = .ok s) ∧
    (∀ t, startLink s = .ok t → t.is_active = true) ∧
    (∀ t, stopLink s = .ok t → t.is_active = false) := by
  obtain ⟨a, ts⟩ := s
  cases a <;> cases ts <;> simp [startLink, stopLink]

/-- Witness for C8: a started active link is unchanged by `start`; a
fresh inactive link is unchanged by `stop`; stopping the active link
deactivates it. -/
theorem C8_start_stop_idem_app :
    startLink ⟨true, true⟩ = .ok ⟨true, true⟩ ∧
    stopLink ⟨false, false⟩ = .ok ⟨false, false⟩ ∧
    LinkState.is_active ⟨false, true⟩ = false :=
  ⟨(C8_start_stop_idem ⟨true, true⟩).1 rfl,
   (C8_start_stop_idem ⟨false, false⟩).2.1 rfl,
   (C8_start_stop_idem ⟨true, true⟩).2.2.2 ⟨false, true⟩ rfl⟩

/-- Claim C9: the write delay defaults to 0.005; the setter stores a
non-negative float exactly, raises `ValueError` on a negative float and
`TypeError` on a non-float, leaving the stored value unchanged in both
error cases. -/
theorem C9_write_delay_setter (old : ℚ) (value : PyVal) :
    initialWriteDelay = 5 / 1000 ∧
    (∀ q, value = PyVal.pyFloat q → 0 ≤ q → setWriteDelay old value = (q, none)) ∧
    (∀ q, value = PyVal.pyFloat q → q < 0 →
      setWriteDelay old value = (old, some PyExc.valueError)) ∧
    ((∀ q, value ≠ PyVal.pyFloat q) →
      setWriteDelay old value = (old, some PyExc.typeError)) := by
  refine ⟨rfl, ?_, ?_, ?_⟩
  · rintro q rfl h
    simp [setWriteDelay, not_lt.mpr h]
  · rintro q rfl h
    simp [setWriteDelay, h]
  · intro h
    cases value with
    | pyFloat q => exact absurd rfl (h q)
    | pyInt n => rfl
    | pyBool b => rfl
    | pyStr s => rfl
    | pyNone => rfl

/-- Witness for C9: assigning 0.3 stores it; assigning −1.0 and the
integer 3 leave the default stored value unchanged, with `ValueError`
and `TypeError` respectively. -/
theorem C9_write_delay_setter_app :
    setWriteDelay initialWriteDelay (PyVal.pyFloat (3 / 10)) = (3 / 10, none) ∧
    setWriteDelay initialWriteDelay (PyVal.pyFloat (-1)) =
      (initialWriteDelay, some PyExc.valueError) ∧
    setWriteDelay initialWriteDelay (PyVal.pyInt 3) =
      (initialWriteDelay, some PyExc.typeError) :=
  ⟨(C9_write_delay_setter initialWriteDelay (PyVal.pyFloat (3 / 10))).2.1
      (3 / 10) rfl (by norm_num),
   (C9_write_delay_setter initialWriteDelay (PyVal.pyFloat (-1))).2.2.1
      (-1) rfl (by norm_num),
   (C9_write_delay_setter initialWriteDelay (PyVal.pyInt 3)).2.2.2
      (by intro q hq; cases hq)⟩

/-- Claim C10: for a format beginning with `'*'` the constructed command
has `has_variable_size`, stores the format with the `'*'` removed and
its `calcsize` under `<`; for a non-empty format not beginning with
`'*'` it has `has_variable_size = false` and stores the format as given;
for a `None` or empty format all of `has_variable_size`,
`struct_format`, `struct_format_size` are `false`/`None`/`None`. -/
theorem C10_format_fields (code : Int) :
    (∀ restF c, mkMspCommand code (some ('*' :: restF)) = .ok c →
      c.has_variable_size = true ∧ c.struct_format = some restF ∧
        c.struct_format_size = calcsize restF) ∧
    (∀ fmt c, mkMspCommand code (some fmt) = .ok c → fmt ≠ [] →
      (∀ restF, fmt ≠ '*' :: restF) →
      c.has_variable_size = false ∧ c.struct_format = some fmt) ∧
    (∀ c, mkMspCommand code none = .ok c →
      c.has_variable_size = false ∧ c.struct_format = none ∧
        c.struct_format_size = none) ∧
    (∀ c, mkMspCommand code (some []) = .ok c →
      c.has_variable_size = false ∧ c.struct_format = none ∧
        c.struct_format_size = none) := by
  refine ⟨?_, ?_, ?_, ?_⟩
  · intro restF c h
    unfold mkMspCommand at h
    split at h
    case isTrue => cases h
    case isFalse =>
      have h' : (match calcsize restF with
          | some n =>
            Except.ok
              (⟨code, decide (200 ≤ code), true, some restF, some n⟩ : MspCommand)
          | none => Except.error PyExc.structError) = Except.ok c := h
      cases hcs : calcsize restF with
      | some n =>
        rw [hcs] at h'
        cases h'
        exact ⟨rfl, rfl, rfl⟩
      | none => rw [hcs] at h'; cases h'
  · intro fmt c h hne hstar
    unfold mkMspCommand at h
    split at h
    case isTrue => cases h
    case isFalse =>
      split at h
      · next restF heq =>
        injection heq with h2
        exact absurd h2 (hstar restF)
      · next ch restF hch heq =>
        injection heq with h2
        subst h2
        split at h
        · cases h
          exact ⟨rfl, rfl⟩
        · cases h
      · next hne1 hne2 =>
        cases fmt with
        | nil => exact absurd rfl hne
        | cons ch rest => exact absurd rfl (hne2 ch rest)
  · intro c h
    unfold mkMspCommand at h
    split at h
    case isTrue => cases h
    case isFalse => cases h; exact ⟨rfl, rfl, rfl⟩
  · intro c h
    unfold mkMspCommand at h
    split at h
    case isTrue => cases h
    case isFalse => cases h; exact ⟨rfl, rfl, rfl⟩

/-- Witness for C10: format `"*2B"` at code 100 yields a
variable-size command storing `"2B"` with packed size 2; format `"H"`
yields a fixed-size command storing `"H"` as given. -/
theorem C10_format_fields_app :
    ((⟨100, false, true, some ['2', 'B'], some 2⟩ : MspCommand).has_variable_size =
        true ∧
      (⟨100, false, true, some ['2', 'B'], some 2⟩ : MspCommand).struct_format =
        some ['2', 'B'] ∧
      (⟨100, false, true, some ['2', 'B'], some 2⟩ : MspCommand).struct_format_size =
        calcsize ['2', 'B']) ∧
    ((⟨100, false, false, some ['H'], some 2⟩ : MspCommand).has_variable_size =
        false ∧
      (⟨100, false, false, some ['H'], some 2⟩ : MspCommand).struct_format =
        some ['H']) :=
  ⟨(C10_format_fields 100).1 ['2', 'B'] _ rfl,
   (C10_format_fields 100).2.1 ['H'] _ rfl (by decide)
     (by intro restF hr; simp at hr)⟩

end Wiiproxy
